import Mathlib

/-!
Shallow embedding of `nova/api/openstack/extensions.py`: the extension
registry (`ExtensionManager`), the extension-descriptor validity contract
(legacy and v2.1 generations), the authorizer factories, the
`expected_errors` error-normalization decorator, and the filesystem bulk
loader `load_standard_extensions`.

Python exceptions are modelled by the inductive `Exc`; fallible code
returns `Except Exc _` or a `state × Option Exc` pair when it also mutates
state.  External collaborators (the import machinery, `nova.policy.enforce`)
are parameters.  Logging calls are elided throughout (they do not affect
control flow or state).
-/

/-- Model of the Python exception values that flow through this module:
`webob.exc.WSGIHTTPException` (with its HTTP status code and explanation),
`nova.exception.Forbidden`, `nova.exception.ValidationError`,
`AttributeError`, `nova.exception.NovaException`, `ImportError`, and a
catch-all for any other exception type carrying its type name. -/
inductive Exc where
  | wsgiHTTP (code : Nat) (explanation : String)
  | forbidden
  | validationError
  | attributeError (msg : String)
  | novaException (msg : String)
  | importError (msg : String)
  | other (tyName : String)
  deriving DecidableEq, Repr

/-- Type name of an exception, standing in for Python's `type(exc)`. -/
def excTypeName : Exc → String
  | .wsgiHTTP code _ => "WSGIHTTPException" ++ toString code
  | .forbidden => "Forbidden"
  | .validationError => "ValidationError"
  | .attributeError _ => "AttributeError"
  | .novaException _ => "NovaException"
  | .importError _ => "ImportError"
  | .other n => n

/-- Message of the generic 500 raised by `expected_errors` on an unexpected
exception: the bug-report pointer text followed by the exception's type
name (`msg = _('Unexpected API Error. ... \n%s') % type(exc)`). -/
def unexpectedErrMsg (exc : Exc) : String :=
  "Unexpected API Error. Please report this at http://bugs.launchpad.net/nova/ and attach the Nova API log if possible.\n"
    ++ excTypeName exc

/-- The `errors` argument of `expected_errors`: a single int or a
collection of ints. -/
inductive Errors where
  | single (n : Nat)
  | codes (l : List Nat)
  deriving DecidableEq, Repr

/-- Normalization of `errors` to a tuple, as in
`if isinstance(errors, int): t_errors = (errors,) else: t_errors = errors`. -/
def tErrors : Errors → List Nat
  | .single n => [n]
  | .codes l => l

/-- The `expected_errors(errors)` decorator applied to a handler outcome:
a normal return passes through; a `WSGIHTTPException` whose code is in the
declared set, a `Forbidden`, or a `ValidationError` is re-raised unchanged;
anything else is replaced by an `HTTPInternalServerError` (code 500)
carrying `unexpectedErrMsg`. -/
def expected_errors {α : Type} (errors : Errors) (result : Except Exc α) :
    Except Exc α :=
  match result with
  | .ok a => .ok a
  | .error exc =>
    match exc with
    | .wsgiHTTP code expl =>
      if code ∈ tErrors errors then .error (.wsgiHTTP code expl)
      else .error (.wsgiHTTP 500 (unexpectedErrMsg (.wsgiHTTP code expl)))
    | .forbidden => .error .forbidden
    | .validationError => .error .validationError
    | e => .error (.wsgiHTTP 500 (unexpectedErrMsg e))

/-- Request context: the two fields the authorizers read. -/
structure Context where
  project_id : String
  user_id : String
  deriving DecidableEq, Repr

/-- The `target` dict passed to the policy evaluator, modelled as an
association list of string keys and values. -/
abbrev Target := List (String × String)

/-- The `core_authorizer(api_name, extension_name)` factory: the returned
closure defaults a `None` target to the context's
project-id/user-id pair, assembles the permission string
`api_name:extension_name(:action)`, and delegates to the external policy
evaluator `enforce` (a parameter here, `nova.policy.enforce` in the code). -/
def core_authorizer (enforce : Context → String → Target → Except Exc Unit)
    (api_name extension_name : String)
    (context : Context) (target : Option Target) (action : Option String) :
    Except Exc Unit :=
  let t :=
    match target with
    | none => [("project_id", context.project_id), ("user_id", context.user_id)]
    | some tg => tg
  let act :=
    match action with
    | none => api_name ++ ":" ++ extension_name
    | some a => api_name ++ ":" ++ extension_name ++ ":" ++ a
  enforce context act t

/-- The legacy-generation `extension_authorizer`: delegates to
`core_authorizer` with the api name rewritten to `api_name ++ "_extension"`. -/
def extension_authorizer (enforce : Context → String → Target → Except Exc Unit)
    (api_name extension_name : String) :
    Context → Option Target → Option String → Except Exc Unit :=
  core_authorizer enforce (api_name ++ "_extension") extension_name

/-- The `_soft_authorizer(hard_authorizer, api_name, extension_name)`
adapter: builds the hard closure once, then wraps each call, converting a
`Forbidden` outcome to `false`, a normal outcome to `true`, and letting any
other exception propagate. -/
def softAuthorizer
    (hard_authorizer :
      String → String → Context → Option Target → Option String → Except Exc Unit)
    (api_name extension_name : String)
    (context : Context) (target : Option Target) (action : Option String) :
    Except Exc Bool :=
  let hard_authorize := hard_authorizer api_name extension_name
  match hard_authorize context target action with
  | .ok _ => .ok true
  | .error .forbidden => .ok false
  | .error e => .error e

/-- `soft_extension_authorizer`: the soft wrapper over the legacy factory. -/
def soft_extension_authorizer (enforce : Context → String → Target → Except Exc Unit)
    (api_name extension_name : String) :
    Context → Option Target → Option String → Except Exc Bool :=
  softAuthorizer (extension_authorizer enforce) api_name extension_name

/-- `soft_core_authorizer`: the soft wrapper over the core factory. -/
def soft_core_authorizer (enforce : Context → String → Target → Except Exc Unit)
    (api_name extension_name : String) :
    Context → Option Target → Option String → Except Exc Bool :=
  softAuthorizer (core_authorizer enforce) api_name extension_name

/-- Controller object carried in a resource record.  The built-in
self-listing controller `ExtensionsController(self)` is the distinguished
`extensionsController` constructor (its back-reference to the manager is
elided); extension-supplied controllers are `external` with an opaque tag;
`noController` models Python `None` (the constructor's default). -/
inductive Controller where
  | extensionsController
  | external (tag : Nat)
  | noController
  deriving DecidableEq, Repr

/-- `ResourceExtension`: the value record handed to the dispatcher.  The
constructor's falsy-to-empty defaulting of the two action maps is applied
by `ResourceExtension.make` below; action implementations and the
custom-routes callback are opaque tags. -/
structure ResourceExtension where
  collection : String
  controller : Controller
  parent : Option String
  collection_actions : List (String × String)
  member_actions : List (String × String)
  custom_routes_fn : Option Nat
  inherits : Option String
  member_name : Option String
  deriving DecidableEq, Repr

/-- The `ResourceExtension.__init__` defaulting: a `None` (falsy) action
map becomes the empty map. -/
def ResourceExtension.make (collection : String) (controller : Controller)
    (parent : Option String) (collection_actions : Option (List (String × String)))
    (member_actions : Option (List (String × String)))
    (custom_routes_fn : Option Nat) (inherits : Option String)
    (member_name : Option String) : ResourceExtension :=
  { collection := collection
    controller := controller
    parent := parent
    collection_actions := collection_actions.getD []
    member_actions := member_actions.getD []
    custom_routes_fn := custom_routes_fn
    inherits := inherits
    member_name := member_name }

/-- `ControllerExtension`: record binding an owning extension (modelled as
an opaque tag, breaking the object-reference cycle), a collection name and
a controller. -/
structure ControllerExtension where
  extension : Nat
  collection : String
  controller : Controller
  deriving DecidableEq, Repr

deriving instance DecidableEq for Except

/-- A duck-typed Python method slot: either the attribute is absent
(access raises `AttributeError`) or it is present and calling it yields a
result or raises. -/
inductive Method (α : Type) where
  | absent
  | impl (result : Except Exc α)
  deriving DecidableEq, Repr

/-- Which `is_valid` implementation the extension object carries: the
legacy `ExtensionDescriptor.is_valid` (checks name, alias, updated,
namespace), the strict `V21APIExtensionBase.is_valid` (checks name, alias,
version), or none at all (a duck-typed object without the method). -/
inductive Gen where
  | legacy
  | v21
  | noIsValidAttr
  deriving DecidableEq, Repr

/-- An extension object as the registry sees it.  Identifying attributes
are `Option String` (`none` models both Python `None` and a missing
attribute, which produce the same registration outcome since
`is_valid`'s `getattr` raises `AttributeError` either way; in particular
the legacy base class never defines `namespace`, modelled here by the
`nspace` field).  `get_resources` and `get_controller_extensions` are
duck-typed method slots. -/
structure PyExt where
  name : Option String
  alias' : Option String
  updated : Option String
  nspace : Option String
  version : Option String
  gen : Gen
  get_resources : Method (List ResourceExtension)
  get_controller_extensions : Method (List ControllerExtension)
  deriving DecidableEq, Repr

/-- Outcome of the `is_valid` attribute: `none` when the object has no
such method; otherwise the call's result — `Except.error msg` models the
`AttributeError` raised when a required identifying attribute is `None`
(legacy generation: name, alias, updated, namespace; strict generation:
name, alias, version), and `Except.ok true` the successful check. -/
def PyExt.is_valid_result (e : PyExt) : Option (Except String Bool) :=
  match e.gen with
  | .noIsValidAttr => none
  | .legacy =>
    some
      (if e.name = none then .error "name is None, needs to be defined"
       else if e.alias' = none then .error "alias is None, needs to be defined"
       else if e.updated = none then .error "updated is None, needs to be defined"
       else if e.nspace = none then .error "namespace is None, needs to be defined"
       else .ok true)
  | .v21 =>
    some
      (if e.name = none then .error "name is None, needs to be defined"
       else if e.alias' = none then .error "alias is None, needs to be defined"
       else if e.version = none then .error "version is None, needs to be defined"
       else .ok true)

/-- `ExtensionManager._check_extension`: calls `extension.is_valid()`
inside `try/except AttributeError`, returning `False` when the attribute
is missing or the check raises, `True` when it returns. -/
def checkExtension (e : PyExt) : Bool :=
  match e.is_valid_result with
  | none => false
  | some (.error _) => false
  | some (.ok _) => true

/-- The registry state: the alias-to-extension dict (association list with
unique keys) and the lazily recomputed sorted view
(`self.sorted_ext_list`, `None` when invalidated). -/
structure ExtensionManager where
  extensions : List (String × PyExt)
  sorted_ext_list : Option (List (String × PyExt))
  deriving DecidableEq, Repr

/-- A freshly initialized manager: empty dict, no cached sorted view. -/
def emptyManager : ExtensionManager := ⟨[], none⟩

/-- Dict lookup `d[k]` (as an `Option`). -/
def dictGet (d : List (String × PyExt)) (k : String) : Option PyExt :=
  match d with
  | [] => none
  | (k', v) :: rest => if k' = k then some v else dictGet rest k

/-- Dict assignment `d[k] = v`: replaces the binding when the key is
present, appends otherwise. -/
def dictSet (d : List (String × PyExt)) (k : String) (v : PyExt) :
    List (String × PyExt) :=
  match d with
  | [] => [(k, v)]
  | (k', v') :: rest =>
    if k' = k then (k, v) :: rest else (k', v') :: dictSet rest k v

/-- `ExtensionManager.register(ext)`: returns the post-state and the
raised exception, if any.  If the extension does not check out, do nothing
and return normally; otherwise read `ext.alias` (an absent or `None` alias
cannot occur after a successful check, but the read is modelled
faithfully), raise `NovaException` on a duplicate alias leaving the state
untouched, else insert and invalidate the sorted-view cache. -/
def ExtensionManager.register (m : ExtensionManager) (ext : PyExt) :
    ExtensionManager × Option Exc :=
  if checkExtension ext = false then (m, none)
  else
    match ext.alias' with
    | none => (m, some (.attributeError "alias"))
    | some a =>
      if (dictGet m.extensions a).isSome then
        (m, some (.novaException ("Found duplicate extension: " ++ a)))
      else
        ({ extensions := dictSet m.extensions a ext, sorted_ext_list := none },
         none)

/-- `ExtensionManager.is_loaded(alias)`: dict membership. -/
def ExtensionManager.is_loaded (m : ExtensionManager) (a : String) : Bool :=
  (dictGet m.extensions a).isSome

/-- Comparison used by `sorted(six.iteritems(self.extensions))`: Python
compares the `(alias, ext)` tuples, which compares the aliases first
(lexicographically, character by character); the aliases are unique, so
the extension objects are never compared.  The alias strings are compared
as character lists under the lexicographic list order. -/
def pairLe (p q : String × PyExt) : Prop := p.1.toList ≤ q.1.toList

instance : DecidableRel pairLe := fun p q =>
  inferInstanceAs (Decidable (p.1.toList ≤ q.1.toList))

instance : IsTotal (String × PyExt) pairLe :=
  ⟨fun a b => le_total a.1.toList b.1.toList⟩

instance : IsTrans (String × PyExt) pairLe := ⟨fun _ _ _ h1 h2 => le_trans h1 h2⟩

/-- `sorted(six.iteritems(self.extensions))`: a stable ascending sort of
the dict items by alias. -/
def sortPairs (l : List (String × PyExt)) : List (String × PyExt) :=
  List.insertionSort pairLe l

/-- One full run of the `sorted_extensions()` generator: recompute and
store the sorted view when the cache is `None`, then yield the extensions
in cache order.  Returns the post-state and the yielded sequence. -/
def ExtensionManager.sorted_extensions_run (m : ExtensionManager) :
    ExtensionManager × List PyExt :=
  match m.sorted_ext_list with
  | some l => (m, l.map Prod.snd)
  | none =>
    let l := sortPairs m.extensions
    ({ m with sorted_ext_list := some l }, l.map Prod.snd)

/-- The built-in self-listing resource
`ResourceExtension('extensions', ExtensionsController(self))`: every
constructor argument other than the collection and controller takes its
default. -/
def builtinExtensionsResource : ResourceExtension :=
  ResourceExtension.make "extensions" Controller.extensionsController
    none none none none none none

/-- The aggregation loop of `ExtensionManager.get_resources`: for each
extension, `resources.extend(ext.get_resources())` inside
`try/except AttributeError: pass` — both a missing attribute and an
`AttributeError` escaping the method body are swallowed; any other
exception propagates and discards the partial list. -/
def collectResources : List PyExt → Except Exc (List ResourceExtension)
  | [] => .ok []
  | e :: rest =>
    match e.get_resources with
    | .absent => collectResources rest
    | .impl (.ok rs) => Except.map (fun tl => rs ++ tl) (collectResources rest)
    | .impl (.error (.attributeError _)) => collectResources rest
    | .impl (.error exc) => .error exc

/-- `ExtensionManager.get_resources()`: the built-in self-listing resource
first, then every contribution in sorted-extension order.  The cache
mutation performed by the underlying generator is not returned here; it is
covered by `Reach.sortStep`. -/
def ExtensionManager.get_resources (m : ExtensionManager) :
    Except Exc (List ResourceExtension) :=
  Except.map (fun rs => builtinExtensionsResource :: rs)
    (collectResources m.sorted_extensions_run.2)

/-- The aggregation loop of `ExtensionManager.get_controller_extensions`:
only the attribute access `ext.get_controller_extensions` is inside
`try/except AttributeError: continue`; the invocation
`get_ext_method()` is outside the `try`, so any exception it raises —
`AttributeError` included — propagates. -/
def collectControllerExtensions :
    List PyExt → Except Exc (List ControllerExtension)
  | [] => .ok []
  | e :: rest =>
    match e.get_controller_extensions with
    | .absent => collectControllerExtensions rest
    | .impl (.ok ces) =>
      Except.map (fun tl => ces ++ tl) (collectControllerExtensions rest)
    | .impl (.error exc) => .error exc

/-- `ExtensionManager.get_controller_extensions()`. -/
def ExtensionManager.get_controller_extensions (m : ExtensionManager) :
    Except Exc (List ControllerExtension) :=
  collectControllerExtensions m.sorted_extensions_run.2

/-- What one extension contributes to `get_resources()`: its returned
list, or nothing when the capability is absent or the call raises the
swallowed `AttributeError`. -/
def extResourceContribution (e : PyExt) : List ResourceExtension :=
  match e.get_resources with
  | .impl (.ok rs) => rs
  | _ => []

/-- Whether an extension's `get_resources` slot cannot make the manager's
aggregation raise: true unless the slot raises something other than
`AttributeError`. -/
def resourcesBenign (e : PyExt) : Bool :=
  match e.get_resources with
  | .impl (.error (.attributeError _)) => true
  | .impl (.error _) => false
  | _ => true

/-- Registry states reachable from a fresh manager by `register` calls
(in any order, succeeding or raising) and `sorted_extensions()` runs. -/
inductive Reach : ExtensionManager → Prop where
  | init : Reach emptyManager
  | regStep (m : ExtensionManager) (e : PyExt) :
      Reach m → Reach (m.register e).1
  | sortStep (m : ExtensionManager) :
      Reach m → Reach m.sorted_extensions_run.1

/-- Invariant of reachable registry states: the cached view, when present,
is the sort of the current dict; every stored extension passed the
validity check and is stored under its own alias; aliases are unique. -/
def mgrWf (m : ExtensionManager) : Prop :=
  (m.sorted_ext_list = none ∨ m.sorted_ext_list = some (sortPairs m.extensions)) ∧
  (∀ p ∈ m.extensions, checkExtension p.2 = true ∧ p.2.alias' = some p.1) ∧
  List.Nodup (m.extensions.map Prod.fst)

/-- Index of the last occurrence of a character in a character list
(Python's `str.rfind`). -/
def lastIdxOfChar (c : Char) : List Char → Option Nat
  | [] => none
  | x :: rest =>
    match lastIdxOfChar c rest with
    | some i => some (i + 1)
    | none => if x = c then some 0 else none

/-- `os.path.splitext` on a plain file name (no directory separators):
split at the last dot, unless every character before that dot is itself a
dot (leading-dot names such as `.cshrc` have no extension). -/
def splitext (p : String) : String × String :=
  let cs := p.toList
  match lastIdxOfChar '.' cs with
  | none => (p, "")
  | some i =>
    if (cs.take i).any (fun c => c ≠ '.') then
      (String.mk (cs.take i), String.mk (cs.drop i))
    else (p, "")

/-- `root[0].upper() + root[1:]`: upper-case only the first character. -/
def capitalizeFirst (s : String) : String :=
  match s.toList with
  | [] => ""
  | c :: rest => String.mk (c.toUpper :: rest)

/-- The fully qualified candidate class path derived from a file's base
name: `package + relpkg + '.' + root + '.' + classname`. -/
def candidateClasspath (package relpkg root : String) : String :=
  package ++ relpkg ++ "." ++ root ++ "." ++ capitalizeFirst root

/-- `ext_list is not None and classname not in ext_list`: the allow-list
skip condition. -/
def skipByList : Option (List String) → String → Bool
  | none, _ => false
  | some l, c => !(l.contains c)

/-- The per-file loop of `load_standard_extensions` over one directory's
file names: skip non-`.py` files and `__init__`, skip classes excluded by
the allow-list, and attempt `ext_mgr.load_extension(classpath)` on the
rest inside `try/except Exception` — the walk continues whatever the
outcome.  Returns the final manager state and the classpaths attempted,
in order. -/
def processFiles (le : ExtensionManager → String → ExtensionManager × Option Exc)
    (package relpkg : String) (L : Option (List String))
    (m : ExtensionManager) : List String → ExtensionManager × List String
  | [] => (m, [])
  | fname :: rest =>
    let se := splitext fname
    if se.2 ≠ ".py" ∨ se.1 = "__init__" then
      processFiles le package relpkg L m rest
    else if skipByList L (capitalizeFirst se.1) then
      processFiles le package relpkg L m rest
    else
      let cp := candidateClasspath package relpkg se.1
      let st := le m cp
      let r := processFiles le package relpkg L st.1 rest
      (r.1, cp :: r.2)

/-- A directory tree as `os.walk` sees it: the file names at this level
and the named subdirectories. -/
inductive DirTree where
  | node (files : List String) (subdirs : List (String × DirTree))

/-- File names at a tree node. -/
def DirTree.files : DirTree → List String
  | .node fs _ => fs

/-- The subdirectory loop of `load_standard_extensions`: a subdirectory
without `__init__.py` is skipped; otherwise the package-level hook
`package + relpkg + '.' + dname + '.extension'` is resolved through the
external importer `imp` (`none` models the `ImportError` caught by the
code) — on success the hook is invoked with the manager inside
`try/except Exception`, on `ImportError` the directory's name is queued
for the recursive walk.  Returns the manager state after all hooks and the
names queued for recursion, in order. -/
def hookPhase (imp : String → Option (ExtensionManager → ExtensionManager × Option Exc))
    (package relpkg : String) (m : ExtensionManager) :
    List (String × DirTree) → ExtensionManager × List String
  | [] => (m, [])
  | (dname, sub) :: rest =>
    if (sub.files.contains "__init__.py") = false then
      hookPhase imp package relpkg m rest
    else
      match imp (package ++ relpkg ++ "." ++ dname ++ ".extension") with
      | some hook =>
        let h := hook m
        hookPhase imp package relpkg h.1 rest
      | none =>
        let r := hookPhase imp package relpkg m rest
        (r.1, dname :: r.2)

mutual

/-- One `os.walk` entry of `load_standard_extensions`: process this
directory's files, run the subdirectory hook phase, then recurse into the
queued subdirectories (`dirnames[:] = subdirs`).  Returns the final
manager and the classpaths passed to `load_extension`, in call order. -/
def walkDir (le : ExtensionManager → String → ExtensionManager × Option Exc)
    (imp : String → Option (ExtensionManager → ExtensionManager × Option Exc))
    (package relpkg : String) (L : Option (List String))
    (m : ExtensionManager) (d : DirTree) : ExtensionManager × List String :=
  match d with
  | .node files subdirs =>
    let fs := processFiles le package relpkg L m files
    let hs := hookPhase imp package relpkg fs.1 subdirs
    let ws := walkDirList le imp package relpkg L hs.2 hs.1 subdirs
    (ws.1, fs.2 ++ ws.2)

/-- Recursion over a directory's subdirectories, entering only those whose
names survived the hook phase (`keep`); a child's relative package is
`relpkg + '.' + dname`. -/
def walkDirList (le : ExtensionManager → String → ExtensionManager × Option Exc)
    (imp : String → Option (ExtensionManager → ExtensionManager × Option Exc))
    (package relpkg : String) (L : Option (List String)) (keep : List String)
    (m : ExtensionManager) :
    List (String × DirTree) → ExtensionManager × List String
  | [] => (m, [])
  | (dname, sub) :: rest =>
    if keep.contains dname then
      let w := walkDir le imp package (relpkg ++ "." ++ dname) L m sub
      let r := walkDirList le imp package relpkg L keep w.1 rest
      (r.1, w.2 ++ r.2)
    else
      walkDirList le imp package relpkg L keep m rest

end

/-- `load_standard_extensions(ext_mgr, logger, path, package, ext_list)`:
walk the tree rooted at `path[0]` starting with the empty relative
package. -/
def load_standard_extensions
    (le : ExtensionManager → String → ExtensionManager × Option Exc)
    (imp : String → Option (ExtensionManager → ExtensionManager × Option Exc))
    (m : ExtensionManager) (tree : DirTree) (package : String)
    (L : Option (List String)) : ExtensionManager × List String :=
  walkDir le imp package "" L m tree

/-- The Boolean a file must satisfy for the loader to attempt it: a `.py`
file other than `__init__` whose derived class name survives the
allow-list. -/
def attemptedFile (L : Option (List String)) (fname : String) : Bool :=
  let se := splitext fname
  if se.2 ≠ ".py" ∨ se.1 = "__init__" then false
  else !(skipByList L (capitalizeFirst se.1))

/-- Python's `str.replace(old, new)` on character lists: replace every
non-overlapping occurrence, scanning left to right.  (With a nonempty
`old`; the code only ever calls it with `old = 'contrib'`.)  The `fuel`
argument makes the recursion structural; each step consumes at least one
character of the remaining input (`(c :: cs).drop old.length` is written
`cs.drop (old.length - 1)`), so `fuel = l.length` always suffices and
the fuel-exhausted branch is unreachable. -/
def replaceCharsGo (old new : List Char) : Nat → List Char → List Char
  | _, [] => []
  | 0, l => l
  | fuel + 1, c :: cs =>
    if old ≠ [] ∧ old.isPrefixOf (c :: cs) then
      new ++ replaceCharsGo old new fuel (cs.drop (old.length - 1))
    else
      c :: replaceCharsGo old new fuel cs

/-- Python's `str.replace` on character lists, with the fuel instantiated. -/
def replaceChars (old new l : List Char) : List Char :=
  replaceCharsGo old new l.length l

/-- Python's `str.replace` on strings. -/
def pyReplace (s old new : String) : String :=
  String.mk (replaceChars old.toList new.toList s.toList)

/-- Python's `str.startswith`. -/
def pyStartsWith (s pre : String) : Bool :=
  pre.toList.isPrefixOf s.toList

/-- The deprecated legacy-v2 module path checked by
`ExtensionManager.load_extension`. -/
def legacyContribPath : String := "nova.api.openstack.compute.contrib"

/-- The identifier `load_extension` actually resolves for a string
factory: when the string starts with the deprecated path, every occurrence
of `'contrib'` is replaced by `'legacy_v2.contrib'` (a warning is logged,
elided here); otherwise the string is unchanged. -/
def resolvedFactoryName (s : String) : String :=
  if pyStartsWith s legacyContribPath then
    pyReplace s "contrib" "legacy_v2.contrib"
  else s

/-- The `ext_factory` argument of `load_extension`: a dotted-path string
or an already-resolved callable.  A callable mutates the manager (it is
expected to call `register`) and may raise. -/
inductive ExtFactory where
  | str (s : String)
  | callable (f : ExtensionManager → ExtensionManager × Option Exc)

/-- `ExtensionManager.load_extension(ext_factory)`: rewrite a deprecated
string path, resolve it through the external importer `imp`, then invoke
the factory with the manager.  Nothing is caught: a resolution error or a
factory exception is the call's outcome. -/
def ExtensionManager.load_extension
    (imp : String → Except Exc (ExtensionManager → ExtensionManager × Option Exc))
    (m : ExtensionManager) (ext_factory : ExtFactory) :
    ExtensionManager × Option Exc :=
  match ext_factory with
  | .str s =>
    match imp (resolvedFactoryName s) with
    | .error e => (m, some e)
    | .ok factory => factory m
  | .callable f => f m

/-- Whether an extension's `get_controller_extensions` slot does not raise
when invoked (the attribute may still be absent: absence is tolerated by
the manager, invocation failure is not). -/
def ctrlBenign (e : PyExt) : Bool :=
  match e.get_controller_extensions with
  | .impl (.error _) => false
  | _ => true

/-- Fixture: a valid legacy extension with alias `a1`. -/
def wExtA : PyExt :=
  ⟨some "Alpha", some "a1", some "2011-01-22T19:25:27Z", some "ns-a", none,
   .legacy, .absent, .absent⟩

/-- Fixture: a valid legacy extension with alias `b1`. -/
def wExtB : PyExt :=
  ⟨some "Beta", some "b1", some "2011-01-22T19:25:27Z", some "ns-b", none,
   .legacy, .absent, .absent⟩

/-- Fixture: a second valid legacy extension that reuses alias `a1`. -/
def wExtA2 : PyExt :=
  ⟨some "AlphaPrime", some "a1", some "2012-01-01T00:00:00Z", some "ns-a2", none,
   .legacy, .absent, .absent⟩

/-- Fixture: an invalid legacy extension (its `name` is `None`). -/
def wExtBad : PyExt :=
  ⟨none, some "bad1", some "2011-01-22T19:25:27Z", some "ns-bad", none,
   .legacy, .absent, .absent⟩

/-- Fixture: an object with no `is_valid` method at all. -/
def wExtNoValid : PyExt :=
  ⟨some "Nameless", some "nv1", none, none, none, .noIsValidAttr, .absent, .absent⟩

/-- Fixture: a resource contributed by an extension. -/
def wRes1 : ResourceExtension :=
  ResourceExtension.make "servers-ext" (.external 1) none none none none none none

/-- Fixture: a valid v2.1 extension with alias `c1` contributing one
resource. -/
def wExtRes : PyExt :=
  ⟨some "Gamma", some "c1", none, none, some "1", .v21,
   .impl (.ok [wRes1]), .impl (.ok [])⟩

/-- Fixture: a valid legacy extension with alias `d1` whose
`get_resources` body raises `AttributeError` and whose
`get_controller_extensions` body raises a `ValueError`. -/
def wExtErr : PyExt :=
  ⟨some "Delta", some "d1", some "2011-01-22T19:25:27Z", some "ns-d", none,
   .legacy, .impl (.error (.attributeError "boom")),
   .impl (.error (.other "ValueError"))⟩

/-! Helper lemmas about the dict model. -/

theorem dictGet_dictSet_self (d : List (String × PyExt)) (k : String) (v : PyExt) :
    dictGet (dictSet d k v) k = some v := by
  induction d with
  | nil => simp [dictSet, dictGet]
  | cons p rest ih =>
    obtain ⟨k', v'⟩ := p
    by_cases h : k' = k
    · simp [dictSet, dictGet, h]
    · simp [dictSet, dictGet, h, ih]

theorem dictSet_eq_append (d : List (String × PyExt)) (k : String) (v : PyExt)
    (h : dictGet d k = none) : dictSet d k v = d ++ [(k, v)] := by
  induction d with
  | nil => simp [dictSet]
  | cons p rest ih =>
    obtain ⟨k', v'⟩ := p
    by_cases hk : k' = k
    · simp [dictGet, hk] at h
    · simp only [dictGet, if_neg hk] at h
      simp [dictSet, hk, ih h]

theorem not_mem_keys_of_dictGet_none (d : List (String × PyExt)) (k : String)
    (h : dictGet d k = none) : k ∉ d.map Prod.fst := by
  induction d with
  | nil => simp
  | cons p rest ih =>
    obtain ⟨k', v'⟩ := p
    by_cases hk : k' = k
    · simp [dictGet, hk] at h
    · simp only [dictGet, if_neg hk] at h
      simp only [List.map_cons, List.mem_cons]
      rintro (rfl | hmem)
      · exact hk rfl
      · exact ih h hmem

/-! Helper lemmas about the registry invariant. -/

theorem mgrWf_empty : mgrWf emptyManager := by
  refine ⟨Or.inl rfl, ?_, ?_⟩ <;> simp [emptyManager]

theorem mgrWf_register (m : ExtensionManager) (e : PyExt) (h : mgrWf m) :
    mgrWf (m.register e).1 := by
  by_cases hc : checkExtension e = false
  · simpa [ExtensionManager.register, hc] using h
  · cases ha : e.alias' with
    | none => simpa [ExtensionManager.register, hc, ha] using h
    | some a =>
      by_cases hd : (dictGet m.extensions a).isSome
      · simpa [ExtensionManager.register, hc, ha, hd] using h
      · have hreg : (m.register e).1 =
            { extensions := dictSet m.extensions a e, sorted_ext_list := none } := by
          simp [ExtensionManager.register, hc, ha, hd]
        rw [hreg]
        have hnone : dictGet m.extensions a = none := by
          cases hx : dictGet m.extensions a with
          | none => rfl
          | some v => rw [hx] at hd; simp at hd
        refine ⟨Or.inl rfl, ?_, ?_⟩
        · intro p hp
          rw [dictSet_eq_append m.extensions a e hnone] at hp
          rcases List.mem_append.mp hp with hp | hp
          · exact h.2.1 p hp
          · simp only [List.mem_singleton] at hp
            subst hp
            exact ⟨by simpa using hc, ha⟩
        · rw [dictSet_eq_append m.extensions a e hnone]
          simp only [List.map_append, List.map_cons, List.map_nil]
          rw [List.nodup_append]
          refine ⟨h.2.2, List.nodup_singleton a, ?_⟩
          intro x hx hx'
          simp only [List.mem_singleton] at hx'
          rw [hx'] at hx
          exact not_mem_keys_of_dictGet_none m.extensions a hnone hx

theorem mgrWf_sortedRun (m : ExtensionManager) (h : mgrWf m) :
    mgrWf m.sorted_extensions_run.1 := by
  cases hs : m.sorted_ext_list with
  | some l =>
    have hrun : m.sorted_extensions_run.1 = m := by
      unfold ExtensionManager.sorted_extensions_run
      rw [hs]
    rw [hrun]
    exact h
  | none =>
    have hrun : m.sorted_extensions_run.1 =
        { m with sorted_ext_list := some (sortPairs m.extensions) } := by
      unfold ExtensionManager.sorted_extensions_run
      rw [hs]
    rw [hrun]
    exact ⟨Or.inr rfl, h.2.1, h.2.2⟩

theorem reach_mgrWf (m : ExtensionManager) (h : Reach m) : mgrWf m := by
  induction h with
  | init => exact mgrWf_empty
  | regStep m e _ ih => exact mgrWf_register m e ih
  | sortStep m _ ih => exact mgrWf_sortedRun m ih

theorem sortedRun_snd (m : ExtensionManager) (h : mgrWf m) :
    m.sorted_extensions_run.2 = (sortPairs m.extensions).map Prod.snd := by
  rcases h.1 with hc | hc <;>
    · unfold ExtensionManager.sorted_extensions_run
      rw [hc]

theorem sortedRun_of_cache (m : ExtensionManager) (l : List (String × PyExt))
    (hs : m.sorted_ext_list = some l) :
    m.sorted_extensions_run = (m, l.map Prod.snd) := by
  unfold ExtensionManager.sorted_extensions_run
  rw [hs]

theorem sortedRun_of_none (m : ExtensionManager) (hs : m.sorted_ext_list = none) :
    m.sorted_extensions_run =
      ({ m with sorted_ext_list := some (sortPairs m.extensions) },
       (sortPairs m.extensions).map Prod.snd) := by
  unfold ExtensionManager.sorted_extensions_run
  rw [hs]

theorem sortedRun_idem (m : ExtensionManager) :
    m.sorted_extensions_run.1.sorted_extensions_run.2 = m.sorted_extensions_run.2 := by
  cases hs : m.sorted_ext_list with
  | some l =>
    rw [sortedRun_of_cache m l hs]
    show m.sorted_extensions_run.2 = List.map Prod.snd l
    rw [sortedRun_of_cache m l hs]
  | none =>
    rw [sortedRun_of_none m hs]
    show ({ extensions := m.extensions,
            sorted_ext_list := some (sortPairs m.extensions) } :
          ExtensionManager).sorted_extensions_run.2
        = (sortPairs m.extensions).map Prod.snd
    rw [sortedRun_of_cache _ _ rfl]

theorem sortPairs_perm (l : List (String × PyExt)) : (sortPairs l).Perm l :=
  List.perm_insertionSort pairLe l

theorem sortPairs_sorted (l : List (String × PyExt)) :
    List.Sorted pairLe (sortPairs l) :=
  List.sorted_insertionSort pairLe l

theorem mem_sortedRun (m : ExtensionManager) (h : mgrWf m) (x : PyExt)
    (hx : x ∈ m.sorted_extensions_run.2) : ∃ p ∈ m.extensions, p.2 = x := by
  rw [sortedRun_snd m h] at hx
  rcases List.mem_map.mp hx with ⟨p, hp, hpx⟩
  exact ⟨p, (sortPairs_perm m.extensions).mem_iff.mp hp, hpx⟩

/-- C1: registering a second valid extension under an alias already held
raises the duplicate-extension `NovaException`, and the registry after the
failing call is exactly the state left by the first registration, still
mapping the alias to the first extension (register is atomic on error). -/
theorem claim_C1 (m : ExtensionManager) (e1 e2 : PyExt) (a : String)
    (h1 : checkExtension e1 = true) (h2 : checkExtension e2 = true)
    (ha1 : e1.alias' = some a) (ha2 : e2.alias' = some a)
    (hsucc : (m.register e1).2 = none) :
    (m.register e1).1.register e2
      = ((m.register e1).1,
         some (Exc.novaException ("Found duplicate extension: " ++ a))) ∧
    dictGet (m.register e1).1.extensions a = some e1 := by
  have hnc : ¬ checkExtension e1 = false := by simp [h1]
  by_cases hd : (dictGet m.extensions a).isSome
  · exfalso
    have hx : (m.register e1).2
        = some (Exc.novaException ("Found duplicate extension: " ++ a)) := by
      simp [ExtensionManager.register, hnc, ha1, hd]
    rw [hx] at hsucc
    cases hsucc
  · have hreg : m.register e1 =
        ({ extensions := dictSet m.extensions a e1, sorted_ext_list := none },
         none) := by
      simp [ExtensionManager.register, hnc, ha1, hd]
    have hget : dictGet (m.register e1).1.extensions a = some e1 := by
      rw [hreg]
      exact dictGet_dictSet_self _ _ _
    refine ⟨?_, hget⟩
    have hns : ¬ checkExtension e2 = false := by simp [h2]
    have hsome : (dictGet (dictSet m.extensions a e1) a).isSome = true := by
      rw [dictGet_dictSet_self]
      rfl
    rw [hreg]
    simp [ExtensionManager.register, hns, ha2, hsome]

/-- C1 witness: registering `wExtA2` after `wExtA` (both alias `a1`) on a
fresh manager raises the duplicate error and leaves `a1` mapped to
`wExtA`. -/
theorem claim_C1_witness :
    (emptyManager.register wExtA).1.register wExtA2
      = ((emptyManager.register wExtA).1,
         some (Exc.novaException ("Found duplicate extension: " ++ "a1"))) ∧
    dictGet (emptyManager.register wExtA).1.extensions "a1" = some wExtA :=
  claim_C1 emptyManager wExtA wExtA2 "a1" (by decide) (by decide) rfl rfl
    (by decide)

theorem checkExtension_false_of_bad (e : PyExt)
    (hbad : (e.gen = .legacy ∧
              (e.name = none ∨ e.alias' = none ∨ e.updated = none ∨
               e.nspace = none)) ∨
            (e.gen = .v21 ∧
              (e.name = none ∨ e.alias' = none ∨ e.version = none)) ∨
            e.gen = .noIsValidAttr) :
    checkExtension e = false := by
  rcases hbad with ⟨hg, hf⟩ | ⟨hg, hf⟩ | hg
  · simp only [checkExtension, PyExt.is_valid_result, hg]
    split_ifs <;> simp_all
  · simp only [checkExtension, PyExt.is_valid_result, hg]
    split_ifs <;> simp_all
  · simp [checkExtension, PyExt.is_valid_result, hg]

/-- C2: an extension whose validity check fails on a `None` required
attribute (legacy: name, alias, updated, namespace; strict: name, alias,
version) or which has no `is_valid` method registers as a no-op: no
exception, state unchanged, and the object appears in no
`sorted_extensions()` output, so `get_resources()` and
`get_controller_extensions()` are exactly what they were before. -/
theorem claim_C2 (m : ExtensionManager) (e : PyExt) (hm : Reach m)
    (hbad : (e.gen = .legacy ∧
              (e.name = none ∨ e.alias' = none ∨ e.updated = none ∨
               e.nspace = none)) ∨
            (e.gen = .v21 ∧
              (e.name = none ∨ e.alias' = none ∨ e.version = none)) ∨
            e.gen = .noIsValidAttr) :
    m.register e = (m, none) ∧
    e ∉ (m.register e).1.sorted_extensions_run.2 ∧
    (m.register e).1.get_resources = m.get_resources ∧
    (m.register e).1.get_controller_extensions
      = m.get_controller_extensions := by
  have hc : checkExtension e = false := checkExtension_false_of_bad e hbad
  have hreg : m.register e = (m, none) := by
    simp [ExtensionManager.register, hc]
  have h1 : (m.register e).1 = m := by rw [hreg]
  refine ⟨hreg, ?_, by rw [h1], by rw [h1]⟩
  rw [h1]
  intro hmem
  rcases mem_sortedRun m (reach_mgrWf m hm) e hmem with ⟨p, hp, hpe⟩
  have hct := ((reach_mgrWf m hm).2.1 p hp).1
  rw [hpe] at hct
  rw [hct] at hc
  exact Bool.noConfusion hc

/-- C2 witness: an invalid legacy extension (name `None`) on a fresh
manager. -/
theorem claim_C2_witness :
    emptyManager.register wExtBad = (emptyManager, none) ∧
    wExtBad ∉ (emptyManager.register wExtBad).1.sorted_extensions_run.2 ∧
    (emptyManager.register wExtBad).1.get_resources
      = emptyManager.get_resources ∧
    (emptyManager.register wExtBad).1.get_controller_extensions
      = emptyManager.get_controller_extensions :=
  claim_C2 emptyManager wExtBad Reach.init (Or.inl ⟨rfl, Or.inl rfl⟩)

/-- C3: on every reachable registry state, `sorted_extensions()` yields
exactly the registered extensions (a permutation of the dict's values),
in ascending lexicographic alias order (each stored extension carries its
own alias as key, and the sorted pair list is ordered by `pairLe`), the
yield agrees with the lazily cached view recomputed from the current map,
and an immediately repeated run yields the same sequence. -/
theorem claim_C3 (m : ExtensionManager) (hm : Reach m) :
    m.sorted_extensions_run.2 = (sortPairs m.extensions).map Prod.snd ∧
    (sortPairs m.extensions).Perm m.extensions ∧
    List.Sorted pairLe (sortPairs m.extensions) ∧
    (∀ p ∈ m.extensions, p.2.alias' = some p.1) ∧
    m.sorted_extensions_run.1.sorted_extensions_run.2
      = m.sorted_extensions_run.2 := by
  have hw := reach_mgrWf m hm
  exact ⟨sortedRun_snd m hw, sortPairs_perm _, sortPairs_sorted _,
    fun p hp => (hw.2.1 p hp).2, sortedRun_idem m⟩

/-- C3 witness: registering alias `b1` then `a1` yields
`[wExtA, wExtB]` — ascending alias order despite registration order. -/
theorem claim_C3_witness :
    ((emptyManager.register wExtB).1.register wExtA).1.sorted_extensions_run.2
      = [wExtA, wExtB] ∧
    ((emptyManager.register wExtB).1.register wExtA).1.sorted_extensions_run.2
      = (sortPairs
          ((emptyManager.register wExtB).1.register wExtA).1.extensions).map
          Prod.snd := by
  have h := claim_C3 ((emptyManager.register wExtB).1.register wExtA).1
    (Reach.regStep _ wExtA (Reach.regStep _ wExtB Reach.init))
  exact ⟨by decide, h.1⟩

/-- C4: `expected_errors` returns a normal result unchanged; re-raises a
`WSGIHTTPException` whose code is declared expected, and `Forbidden` and
`ValidationError` regardless of the declared codes; replaces every other
exception (undeclared HTTP codes included) by a 500 whose message is the
bug-report pointer followed by the original exception's type name; and
that fallback is the only path on which the outward error changes. -/
theorem claim_C4 (α : Type) (errors : Errors) :
    (∀ a : α, expected_errors errors (Except.ok a) = Except.ok a) ∧
    (∀ code expl, code ∈ tErrors errors →
      @expected_errors α errors (.error (.wsgiHTTP code expl))
        = .error (.wsgiHTTP code expl)) ∧
    @expected_errors α errors (.error .forbidden) = .error .forbidden ∧
    @expected_errors α errors (.error .validationError)
      = .error .validationError ∧
    (∀ exc : Exc, exc ≠ .forbidden → exc ≠ .validationError →
      (∀ code expl, exc = .wsgiHTTP code expl → code ∉ tErrors errors) →
      @expected_errors α errors (.error exc)
        = .error (.wsgiHTTP 500 (unexpectedErrMsg exc))) ∧
    (∀ exc : Exc, unexpectedErrMsg exc
        = "Unexpected API Error. Please report this at "
          ++ "http://bugs.launchpad.net/nova/"
          ++ (" and attach the Nova API log if possible.\n"
              ++ excTypeName exc)) ∧
    (∀ exc : Exc, @expected_errors α errors (.error exc) ≠ .error exc →
      @expected_errors α errors (.error exc)
        = .error (.wsgiHTTP 500 (unexpectedErrMsg exc))) := by
  refine ⟨?_, ?_, ?_, ?_, ?_, ?_, ?_⟩
  · intro a
    rfl
  · intro code expl h
    simp [expected_errors, h]
  · rfl
  · rfl
  · intro exc h1 h2 h3
    cases exc with
    | wsgiHTTP code expl =>
      have hn := h3 code expl rfl
      simp [expected_errors, hn]
    | forbidden => exact absurd rfl h1
    | validationError => exact absurd rfl h2
    | attributeError msg => rfl
    | novaException msg => rfl
    | importError msg => rfl
    | other n => rfl
  · intro exc
    rw [unexpectedErrMsg, ← String.append_assoc]
    congr 1
  · intro exc hne
    cases exc with
    | wsgiHTTP code expl =>
      by_cases h : code ∈ tErrors errors
      · exact absurd (by simp [expected_errors, h]) hne
      · simp [expected_errors, h]
    | forbidden => exact absurd rfl hne
    | validationError => exact absurd rfl hne
    | attributeError msg => rfl
    | novaException msg => rfl
    | importError msg => rfl
    | other n => rfl

/-- C4 witness: with declared codes `404`, a 404 passes through, a plain
`KeyError` and an undeclared 500 are both replaced by the generic 500. -/
theorem claim_C4_witness :
    @expected_errors Nat (.single 404) (.error (.wsgiHTTP 404 "not found"))
      = .error (.wsgiHTTP 404 "not found") ∧
    @expected_errors Nat (.single 404) (.error (.other "KeyError"))
      = .error (.wsgiHTTP 500 (unexpectedErrMsg (.other "KeyError"))) ∧
    @expected_errors Nat (.single 404) (.error (.wsgiHTTP 500 "boom"))
      = .error (.wsgiHTTP 500 (unexpectedErrMsg (.wsgiHTTP 500 "boom"))) := by
  refine ⟨(claim_C4 Nat (.single 404)).2.1 404 "not found" (by decide),
    (claim_C4 Nat (.single 404)).2.2.2.2.1 (.other "KeyError")
      (by decide) (by decide) ?_,
    (claim_C4 Nat (.single 404)).2.2.2.2.1 (.wsgiHTTP 500 "boom")
      (by decide) (by decide) ?_⟩
  · intro code expl h
    cases h
  · intro code expl h
    injection h with hc he
    subst hc
    decide

/-- C5: the soft-authorizer closure built from any hard-authorizer factory
returns `false` exactly when the hard closure raises `Forbidden` on the
identical inputs, `true` when it returns normally, and re-raises any other
exception unchanged. -/
theorem claim_C5
    (hard : String → String → Context → Option Target → Option String →
      Except Exc Unit)
    (api feature : String) (ctx : Context) (tgt : Option Target)
    (act : Option String) :
    (hard api feature ctx tgt act = .error .forbidden →
      softAuthorizer hard api feature ctx tgt act = .ok false) ∧
    (∀ u, hard api feature ctx tgt act = .ok u →
      softAuthorizer hard api feature ctx tgt act = .ok true) ∧
    (∀ e, e ≠ .forbidden → hard api feature ctx tgt act = .error e →
      softAuthorizer hard api feature ctx tgt act = .error e) := by
  refine ⟨?_, ?_, ?_⟩
  · intro h
    simp [softAuthorizer, h]
  · intro u h
    simp [softAuthorizer, h]
  · intro e he h
    cases e with
    | forbidden => exact absurd rfl he
    | wsgiHTTP c ex => simp [softAuthorizer, h]
    | validationError => simp [softAuthorizer, h]
    | attributeError msg => simp [softAuthorizer, h]
    | novaException msg => simp [softAuthorizer, h]
    | importError msg => simp [softAuthorizer, h]
    | other n => simp [softAuthorizer, h]

/-- C5 witness: concrete hard authorizers that deny, allow, and fail with
a non-Forbidden error. -/
theorem claim_C5_witness :
    softAuthorizer (fun _ _ _ _ _ => Except.error Exc.forbidden)
      "os_compute_api" "servers" ⟨"p", "u"⟩ none none = .ok false ∧
    softAuthorizer (fun _ _ _ _ _ => Except.ok ())
      "os_compute_api" "servers" ⟨"p", "u"⟩ none none = .ok true ∧
    softAuthorizer (fun _ _ _ _ _ => Except.error (Exc.other "DBError"))
      "os_compute_api" "servers" ⟨"p", "u"⟩ none none
      = .error (Exc.other "DBError") :=
  ⟨(claim_C5 _ "os_compute_api" "servers" ⟨"p", "u"⟩ none none).1 rfl,
   (claim_C5 _ "os_compute_api" "servers" ⟨"p", "u"⟩ none none).2.1 () rfl,
   (claim_C5 _ "os_compute_api" "servers" ⟨"p", "u"⟩ none none).2.2
     (Exc.other "DBError") (by decide) rfl⟩

/-- C7: the legacy extension authorizer is the core authorizer with the
api name rewritten to `api_extension`, so the enforced permission strings
are `api_extension:feature(:action)` versus `api:feature(:action)` — the
only difference between the two generations — and an omitted target
defaults to the context's project-id/user-id pair. -/
theorem claim_C7 (enforce : Context → String → Target → Except Exc Unit)
    (api feature act_name : String) (ctx : Context) (tgt : Target) :
    core_authorizer enforce api feature ctx (some tgt) none
      = enforce ctx (api ++ ":" ++ feature) tgt ∧
    core_authorizer enforce api feature ctx (some tgt) (some act_name)
      = enforce ctx (api ++ ":" ++ feature ++ ":" ++ act_name) tgt ∧
    extension_authorizer enforce api feature ctx (some tgt) none
      = enforce ctx (api ++ "_extension" ++ ":" ++ feature) tgt ∧
    extension_authorizer enforce api feature ctx (some tgt) (some act_name)
      = enforce ctx (api ++ "_extension" ++ ":" ++ feature ++ ":" ++ act_name)
          tgt ∧
    extension_authorizer enforce api feature
      = core_authorizer enforce (api ++ "_extension") feature ∧
    core_authorizer enforce api feature ctx none none
      = enforce ctx (api ++ ":" ++ feature)
          [("project_id", ctx.project_id), ("user_id", ctx.user_id)] ∧
    core_authorizer enforce api feature ctx none (some act_name)
      = enforce ctx (api ++ ":" ++ feature ++ ":" ++ act_name)
          [("project_id", ctx.project_id), ("user_id", ctx.user_id)] ∧
    extension_authorizer enforce api feature ctx none none
      = enforce ctx (api ++ "_extension" ++ ":" ++ feature)
          [("project_id", ctx.project_id), ("user_id", ctx.user_id)] :=
  ⟨rfl, rfl, rfl, rfl, rfl, rfl, rfl, rfl⟩

theorem collectResources_eq_join (l : List PyExt)
    (h : ∀ e ∈ l, resourcesBenign e = true) :
    collectResources l = .ok ((l.map extResourceContribution).flatten) := by
  induction l with
  | nil => rfl
  | cons e rest ih =>
    have hrest := ih (fun x hx => h x (List.mem_cons_of_mem e hx))
    have he := h e (List.mem_cons_self e rest)
    cases hm : e.get_resources with
    | absent => simp [collectResources, hm, hrest, extResourceContribution]
    | impl r =>
      cases r with
      | ok rs => simp [collectResources, Except.map, hm, hrest, extResourceContribution]
      | error exc =>
        cases exc with
        | attributeError m2 =>
          simp [collectResources, hm, hrest, extResourceContribution]
        | wsgiHTTP c x => simp [resourcesBenign, hm] at he
        | forbidden => simp [resourcesBenign, hm] at he
        | validationError => simp [resourcesBenign, hm] at he
        | novaException m2 => simp [resourcesBenign, hm] at he
        | importError m2 => simp [resourcesBenign, hm] at he
        | other n => simp [resourcesBenign, hm] at he

theorem collectResources_skip_attr (pre post : List PyExt) (e : PyExt)
    (msg : String)
    (he : e.get_resources = .impl (.error (.attributeError msg))) :
    collectResources (pre ++ e :: post) = collectResources (pre ++ post) := by
  induction pre with
  | nil => simp [collectResources, he]
  | cons p pre' ih =>
    cases hm : p.get_resources with
    | absent => simp [collectResources, hm, ih]
    | impl r =>
      cases r with
      | ok rs => simp [collectResources, Except.map, hm, ih]
      | error exc => cases exc <;> simp [collectResources, Except.map, hm, ih]

theorem collectCtrl_error (pre post : List PyExt) (e : PyExt) (exc : Exc)
    (hpre : ∀ p ∈ pre, ctrlBenign p = true)
    (he : e.get_controller_extensions = .impl (.error exc)) :
    collectControllerExtensions (pre ++ e :: post) = .error exc := by
  induction pre with
  | nil => simp [collectControllerExtensions, he]
  | cons p pre' ih =>
    have hp := hpre p (List.mem_cons_self p pre')
    have hrest : ∀ q ∈ pre', ctrlBenign q = true :=
      fun q hq => hpre q (List.mem_cons_of_mem p hq)
    cases hm : p.get_controller_extensions with
    | absent => simp [collectControllerExtensions, hm, ih hrest]
    | impl r =>
      cases r with
      | ok ces => simp [collectControllerExtensions, Except.map, hm, ih hrest]
      | error e2 => simp [ctrlBenign, hm] at hp

/-- C6: when no registered extension's `get_resources` raises anything the
manager does not swallow, `get_resources()` returns the built-in
self-listing resource followed by every contribution in sorted
(ascending-alias) extension order; the built-in resource is first, occurs
exactly once when no extension contributes an equal record, and a missing
`get_resources` capability contributes the empty list without error. -/
theorem claim_C6 (m : ExtensionManager) (hm : Reach m)
    (hben : ∀ e ∈ m.sorted_extensions_run.2, resourcesBenign e = true) :
    m.get_resources
      = .ok (builtinExtensionsResource ::
          (m.sorted_extensions_run.2.map extResourceContribution).flatten) ∧
    m.sorted_extensions_run.2 = (sortPairs m.extensions).map Prod.snd ∧
    (∀ l, m.get_resources = .ok l →
      l.head? = some builtinExtensionsResource) ∧
    ((∀ e ∈ m.sorted_extensions_run.2,
        builtinExtensionsResource ∉ extResourceContribution e) →
      ∀ l, m.get_resources = .ok l →
        l.count builtinExtensionsResource = 1) ∧
    (∀ e : PyExt, e.get_resources = .absent →
      extResourceContribution e = []) := by
  have hcr := collectResources_eq_join m.sorted_extensions_run.2 hben
  have hmain : m.get_resources
      = .ok (builtinExtensionsResource ::
          (m.sorted_extensions_run.2.map extResourceContribution).flatten) := by
    unfold ExtensionManager.get_resources
    rw [hcr]
    rfl
  refine ⟨hmain, sortedRun_snd m (reach_mgrWf m hm), ?_, ?_, ?_⟩
  · intro l hl
    rw [hmain] at hl
    have hll : builtinExtensionsResource ::
        (m.sorted_extensions_run.2.map extResourceContribution).flatten = l := by
      injection hl
    rw [← hll]
    rfl
  · intro hnb l hl
    rw [hmain] at hl
    have hll : builtinExtensionsResource ::
        (m.sorted_extensions_run.2.map extResourceContribution).flatten = l := by
      injection hl
    rw [← hll]
    rw [List.count_cons_self]
    have hz : (m.sorted_extensions_run.2.map extResourceContribution).flatten.count
        builtinExtensionsResource = 0 := by
      rw [List.count_eq_zero]
      intro hmem
      rcases List.mem_flatten.mp hmem with ⟨lx, hlx, hin⟩
      rcases List.mem_map.mp hlx with ⟨e, hel, hle⟩
      rw [← hle] at hin
      exact hnb e hel hin
    rw [hz]
  · intro e he
    simp [extResourceContribution, he]

/-- C6 witness: a manager holding one resource-contributing extension and
one without the capability. -/
theorem claim_C6_witness :
    ((emptyManager.register wExtRes).1.register wExtA).1.get_resources
      = .ok (builtinExtensionsResource ::
          ((((emptyManager.register wExtRes).1.register
              wExtA).1.sorted_extensions_run.2).map
            extResourceContribution).flatten) ∧
    ((emptyManager.register wExtRes).1.register wExtA).1.get_resources
      = .ok [builtinExtensionsResource, wRes1] := by
  have h := claim_C6 ((emptyManager.register wExtRes).1.register wExtA).1
    (Reach.regStep _ wExtA (Reach.regStep _ wExtRes Reach.init)) (by decide)
  exact ⟨h.1, by decide⟩

/-- C10: the two aggregations treat exceptions asymmetrically.  If a
registered extension's `get_resources` body raises `AttributeError`, the
manager's `get_resources()` silently drops that extension's contribution;
but once the `get_controller_extensions` attribute exists, any exception
its invocation raises propagates out of the manager's
`get_controller_extensions()`. -/
theorem claim_C10 :
    (∀ (m : ExtensionManager) (e : PyExt) (msg : String)
        (pre post : List PyExt),
      m.sorted_extensions_run.2 = pre ++ e :: post →
      e.get_resources = .impl (.error (.attributeError msg)) →
      m.get_resources
        = Except.map (fun rs => builtinExtensionsResource :: rs)
            (collectResources (pre ++ post))) ∧
    (∀ (m : ExtensionManager) (e : PyExt) (exc : Exc)
        (pre post : List PyExt),
      m.sorted_extensions_run.2 = pre ++ e :: post →
      e.get_controller_extensions = .impl (.error exc) →
      (∀ p ∈ pre, ctrlBenign p = true) →
      m.get_controller_extensions = .error exc) := by
  constructor
  · intro m e msg pre post hs he
    unfold ExtensionManager.get_resources
    rw [hs, collectResources_skip_attr pre post e msg he]
  · intro m e exc pre post hs he hpre
    unfold ExtensionManager.get_controller_extensions
    rw [hs]
    exact collectCtrl_error pre post e exc hpre he

/-- C10 witness: a manager holding only `wExtErr`, whose `get_resources`
body raises `AttributeError` (dropped) and whose
`get_controller_extensions` body raises a `ValueError` (propagated). -/
theorem claim_C10_witness :
    (⟨[("d1", wExtErr)], none⟩ : ExtensionManager).get_resources
      = Except.map (fun rs => builtinExtensionsResource :: rs)
          (collectResources ([] ++ [])) ∧
    (⟨[("d1", wExtErr)], none⟩ : ExtensionManager).get_controller_extensions
      = .error (Exc.other "ValueError") :=
  ⟨claim_C10.1 _ wExtErr "boom" [] [] (by decide) rfl,
   claim_C10.2 _ wExtErr (Exc.other "ValueError") [] [] (by decide) rfl
     (by intro p hp; cases hp)⟩

theorem processFiles_trace
    (le : ExtensionManager → String → ExtensionManager × Option Exc)
    (package relpkg : String) (L : Option (List String))
    (m : ExtensionManager) (files : List String) :
    (processFiles le package relpkg L m files).2
      = (files.filter (attemptedFile L)).map
          (fun f => candidateClasspath package relpkg (splitext f).1) := by
  induction files generalizing m with
  | nil => rfl
  | cons f rest ih =>
    by_cases h1 : (splitext f).2 ≠ ".py" ∨ (splitext f).1 = "__init__"
    · simp [processFiles, attemptedFile, h1, ih m]
    · by_cases h2 : skipByList L (capitalizeFirst (splitext f).1) = true
      · simp [processFiles, attemptedFile, h1, h2, ih m]
      · simp [processFiles, attemptedFile, h1, h2,
          ih (le m (candidateClasspath package relpkg (splitext f).1)).1]

theorem hookPhase_snd_congr
    (imp : String → Option (ExtensionManager → ExtensionManager × Option Exc))
    (package relpkg : String) (m1 m2 : ExtensionManager)
    (l : List (String × DirTree)) :
    (hookPhase imp package relpkg m1 l).2
      = (hookPhase imp package relpkg m2 l).2 := by
  induction l generalizing m1 m2 with
  | nil => rfl
  | cons p rest ih =>
    obtain ⟨dname, sub⟩ := p
    by_cases hi : "__init__.py" ∈ sub.files
    · cases him : imp (package ++ relpkg ++ "." ++ dname ++ ".extension") with
      | some hook => simp [hookPhase, hi, him, ih (hook m1).1 (hook m2).1]
      | none => simp [hookPhase, hi, him, ih m1 m2]
    · simp [hookPhase, hi, ih m1 m2]

mutual

theorem walkDir_trace_congr
    (le1 le2 : ExtensionManager → String → ExtensionManager × Option Exc)
    (imp : String → Option (ExtensionManager → ExtensionManager × Option Exc))
    (package relpkg : String) (L : Option (List String))
    (m1 m2 : ExtensionManager) (d : DirTree) :
    (walkDir le1 imp package relpkg L m1 d).2
      = (walkDir le2 imp package relpkg L m2 d).2 := by
  cases d with
  | node files subdirs =>
    simp only [walkDir]
    rw [processFiles_trace le1 package relpkg L m1 files,
        processFiles_trace le2 package relpkg L m2 files,
        hookPhase_snd_congr imp package relpkg
          (processFiles le1 package relpkg L m1 files).1
          (processFiles le2 package relpkg L m2 files).1 subdirs,
        walkDirList_trace_congr le1 le2 imp package relpkg L
          (hookPhase imp package relpkg
            (processFiles le2 package relpkg L m2 files).1 subdirs).2
          (hookPhase imp package relpkg
            (processFiles le1 package relpkg L m1 files).1 subdirs).1
          (hookPhase imp package relpkg
            (processFiles le2 package relpkg L m2 files).1 subdirs).1
          subdirs]

theorem walkDirList_trace_congr
    (le1 le2 : ExtensionManager → String → ExtensionManager × Option Exc)
    (imp : String → Option (ExtensionManager → ExtensionManager × Option Exc))
    (package relpkg : String) (L : Option (List String)) (keep : List String)
    (m1 m2 : ExtensionManager) (l : List (String × DirTree)) :
    (walkDirList le1 imp package relpkg L keep m1 l).2
      = (walkDirList le2 imp package relpkg L keep m2 l).2 := by
  cases l with
  | nil => rfl
  | cons p rest =>
    obtain ⟨dname, sub⟩ := p
    by_cases hk : keep.contains dname
    · simp only [walkDirList, hk, if_pos]
      rw [walkDir_trace_congr le1 le2 imp package (relpkg ++ "." ++ dname) L
            m1 m2 sub,
          walkDirList_trace_congr le1 le2 imp package relpkg L keep
            (walkDir le1 imp package (relpkg ++ "." ++ dname) L m1 sub).1
            (walkDir le2 imp package (relpkg ++ "." ++ dname) L m2 sub).1
            rest]
    · simp only [walkDirList, hk, if_neg]
      exact walkDirList_trace_congr le1 le2 imp package relpkg L keep m1 m2 rest

end

/-- C8: the bulk filesystem loader attempts exactly the `.py` files other
than `__init__` whose derived class name (file base name with its first
letter upper-cased) survives the allow-list, passing for each the
candidate path `package + relpkg + '.' + root + '.' + classname` to
`load_extension` — an excluded class name is never passed — and the trace
of attempted candidates over a whole tree does not depend on the loading
outcomes: a failing candidate never stops the remaining ones. -/
theorem claim_C8 :
    (∀ (le : ExtensionManager → String → ExtensionManager × Option Exc)
        (package relpkg : String) (L : Option (List String))
        (m : ExtensionManager) (files : List String),
      (processFiles le package relpkg L m files).2
        = (files.filter (attemptedFile L)).map
            (fun f => candidateClasspath package relpkg (splitext f).1)) ∧
    (∀ (L : Option (List String)) (allow : List String) (f : String),
      L = some allow → capitalizeFirst (splitext f).1 ∉ allow →
      attemptedFile L f = false) ∧
    (∀ (le1 le2 : ExtensionManager → String → ExtensionManager × Option Exc)
        (imp : String → Option (ExtensionManager →
          ExtensionManager × Option Exc))
        (package : String) (L : Option (List String))
        (m1 m2 : ExtensionManager) (tree : DirTree),
      (load_standard_extensions le1 imp m1 tree package L).2
        = (load_standard_extensions le2 imp m2 tree package L).2) := by
  refine ⟨processFiles_trace, ?_, ?_⟩
  · intro L allow f hL hnot
    subst hL
    simp only [attemptedFile, skipByList]
    split_ifs with h1
    · rfl
    · simp [hnot]
  · intro le1 le2 imp package L m1 m2 tree
    unfold load_standard_extensions
    exact walkDir_trace_congr le1 le2 imp package "" L m1 m2 tree

/-- C8 witness: with allow-list containing only `Bar`, the file `foo.py`
is not attempted. -/
theorem claim_C8_witness :
    attemptedFile (some ["Bar"]) "foo.py" = false :=
  claim_C8.2.1 (some ["Bar"]) ["Bar"] "foo.py" rfl (by decide)

/-- C9 counterexample: `str.replace` rewrites every occurrence of
`contrib`, not only the deprecated path at the front, so for an identifier
whose remainder also contains `contrib` the resolved identifier differs
from the claimed prefix-only rewrite. -/
theorem claim_C9_counterexample :
    resolvedFactoryName "nova.api.openstack.compute.contrib.mycontrib.Foo"
      = "nova.api.openstack.compute.legacy_v2.contrib.mylegacy_v2.contrib.Foo" ∧
    resolvedFactoryName "nova.api.openstack.compute.contrib.mycontrib.Foo"
      ≠ "nova.api.openstack.compute.legacy_v2.contrib" ++ ".mycontrib.Foo" :=
  ⟨by decide, by decide⟩

/-- C9 (amended): a string identifier starting with the deprecated path
is resolved as the identifier with every occurrence of `contrib` replaced
by `legacy_v2.contrib` (for paths whose only `contrib` occurrence is the
deprecated segment, this is exactly the prefix rewrite); any other string
is resolved as-is; and both a resolution error and the factory's own
outcome propagate unchanged to `load_extension`'s caller. -/
theorem claim_C9_amended
    (imp : String → Except Exc (ExtensionManager →
      ExtensionManager × Option Exc))
    (m : ExtensionManager) (s : String)
    (f : ExtensionManager → ExtensionManager × Option Exc) :
    (pyStartsWith s legacyContribPath = true →
      resolvedFactoryName s = pyReplace s "contrib" "legacy_v2.contrib") ∧
    (pyStartsWith s legacyContribPath = false →
      resolvedFactoryName s = s) ∧
    (∀ e, imp (resolvedFactoryName s) = .error e →
      ExtensionManager.load_extension imp m (.str s) = (m, some e)) ∧
    (∀ fct, imp (resolvedFactoryName s) = .ok fct →
      ExtensionManager.load_extension imp m (.str s) = fct m) ∧
    ExtensionManager.load_extension imp m (.callable f) = f m := by
  refine ⟨?_, ?_, ?_, ?_, rfl⟩
  · intro h
    simp [resolvedFactoryName, h]
  · intro h
    simp [resolvedFactoryName, h]
  · intro e he
    simp [ExtensionManager.load_extension, he]
  · intro fct hf
    simp [ExtensionManager.load_extension, hf]

/-- C9 witness: a deprecated-path identifier is rewritten before being
handed to the importer, and the importer's error propagates. -/
theorem claim_C9_witness :
    resolvedFactoryName "nova.api.openstack.compute.contrib.keypairs.Keypairs"
      = pyReplace "nova.api.openstack.compute.contrib.keypairs.Keypairs"
          "contrib" "legacy_v2.contrib" ∧
    ExtensionManager.load_extension (fun s => .error (.importError s))
        emptyManager
        (.str "nova.api.openstack.compute.contrib.keypairs.Keypairs")
      = (emptyManager,
         some (.importError (resolvedFactoryName
           "nova.api.openstack.compute.contrib.keypairs.Keypairs"))) :=
  ⟨(claim_C9_amended (fun s => .error (.importError s)) emptyManager
      "nova.api.openstack.compute.contrib.keypairs.Keypairs"
      (fun m => (m, none))).1 (by decide),
   (claim_C9_amended (fun s => .error (.importError s)) emptyManager
      "nova.api.openstack.compute.contrib.keypairs.Keypairs"
      (fun m => (m, none))).2.2.1 _ rfl⟩
